import Mathlib

/-!
Verification of the content-moderation core of the SpaceNewsMoon site
(`src/app.py`): the heuristic fake-news scorer `improved_fake_score`,
the retention policy (`add_news` decision segment and `cleanup_fakes`
sweep), and the moon-phase calculator `moon_phase_info`.

Modelling conventions:
* text is `List Char` (Python `str`); `String.data` injects literals;
* Python floats are modelled by `ℚ` (every float value is rational and
  all constants in the source are exactly representable; comparisons
  with the threshold at the inputs used here are insensitive to float
  rounding);
* the real-valued moon illumination uses `ℝ` and `Real.cos`;
* `str.lower()` is modelled on the alphabets the source's word lists
  use (ASCII and Russian Cyrillic);
* the filesystem is a list of existing file names together with an
  oracle saying which deletions raise; the source suppresses those
  exceptions, so the embedded operations are total.
-/

/-- Python whitespace characters, as used by `str.strip` and `\s`. -/
def isSpaceB (c : Char) : Bool :=
  c == ' ' || c == '\t' || c == '\n' || c == '\r' || c == '\x0b' || c == '\x0c'

/-- Lower-casing of one character, covering ASCII `A`-`Z` and Cyrillic
`А`-`Я`, `Ё` (the alphabets appearing in the source's keyword lists). -/
def lowerChar (c : Char) : Char :=
  if 65 ≤ c.toNat ∧ c.toNat ≤ 90 then Char.ofNat (c.toNat + 32)
  else if 1040 ≤ c.toNat ∧ c.toNat ≤ 1071 then Char.ofNat (c.toNat + 32)
  else if c.toNat = 1025 then Char.ofNat 1105
  else c

/-- Lower-casing of a text, modelling `str.lower()`. -/
def lowerStr (s : List Char) : List Char := s.map lowerChar

/-- Character class `[A-Za-zА-Яа-яЁё0-9]` used by the source's
`re.findall` tokenizer. -/
def isTokenChar (c : Char) : Bool :=
  decide ((65 ≤ c.toNat ∧ c.toNat ≤ 90) ∨ (97 ≤ c.toNat ∧ c.toNat ≤ 122) ∨
    (1040 ≤ c.toNat ∧ c.toNat ≤ 1103) ∨ c.toNat = 1025 ∨ c.toNat = 1105 ∨
    (48 ≤ c.toNat ∧ c.toNat ≤ 57))

/-- Word characters for the regex `\b` boundary (Python `\w`, restricted
to the alphabets in play plus the underscore). -/
def isWordCharB (c : Char) : Bool := isTokenChar c || c == '_'

/-- Character class `[A-ZА-ЯЁ]` of the `UPPERCASE_WORD` regex. -/
def isUpperAlpha (c : Char) : Bool :=
  decide ((65 ≤ c.toNat ∧ c.toNat ≤ 90) ∨ (1040 ≤ c.toNat ∧ c.toNat ≤ 1071) ∨
    c.toNat = 1025)

/-- The regex `^[A-ZА-ЯЁ]{4,}$` (`UPPERCASE_WORD`), applied to a token. -/
def isUpperWord (w : List Char) : Bool :=
  decide (4 ≤ w.length) && w.all isUpperAlpha

/-- Boolean prefix test on character lists. -/
def isPrefixOfB : List Char → List Char → Bool
  | [], _ => true
  | _ :: _, [] => false
  | a :: as, b :: bs => a == b && isPrefixOfB as bs

/-- Boolean substring test: `pat` occurs contiguously in the text.
Models Python `pat in s` and `re.search` for literal patterns. -/
def containsB (pat : List Char) : List Char → Bool
  | [] => pat.isEmpty
  | c :: rest => isPrefixOfB pat (c :: rest) || containsB pat rest

/-- First half of the red-flag pattern `плоская\s+земля`. -/
def flatA : List Char := "плоская".data

/-- Second half of the red-flag pattern `плоская\s+земля`. -/
def flatB : List Char := "земля".data

/-- Match of `плоская\s+земля` anchored at the head of the text. -/
def matchFlatAt (s : List Char) : Bool :=
  isPrefixOfB flatA s &&
    (let r := s.drop flatA.length
     !(r.takeWhile isSpaceB).isEmpty && isPrefixOfB flatB (r.dropWhile isSpaceB))

/-- Search for `плоская\s+земля` anywhere in the (lowered) text. -/
def searchFlatEarth : List Char → Bool
  | [] => false
  | c :: rest => matchFlatAt (c :: rest) || searchFlatEarth rest

/-- Match of `\b w \b` anchored at the head of the text: `w` occurs here
and the character right after it (if any) is not a word character. The
left boundary is handled by the search loop. -/
def wordAt (w s : List Char) : Bool :=
  isPrefixOfB w s &&
    (match s.drop w.length with
     | [] => true
     | c :: _ => !isWordCharB c)

/-- Search loop for a whole-word match; `prev` records whether the
character before the current position is a word character. -/
def searchWordAux (w : List Char) : Bool → List Char → Bool
  | _, [] => false
  | prev, c :: rest => (!prev && wordAt w (c :: rest)) || searchWordAux w (isWordCharB c) rest

/-- Search for regex `\b w \b` in a text (start-of-string counts as a
boundary, as in Python `re`). -/
def searchWord (w : List Char) (s : List Char) : Bool := searchWordAux w false s

/-- Variant of `wordAt` demanding that a non-word character is actually
present after the match (so the right boundary survives appends). -/
def strongWordAt (w s : List Char) : Bool :=
  isPrefixOfB w s &&
    (match s.drop w.length with
     | [] => false
     | c :: _ => !isWordCharB c)

/-- Search loop for an internally-bounded whole-word match. -/
def strongSearchAux (w : List Char) : Bool → List Char → Bool
  | _, [] => false
  | prev, c :: rest => (!prev && strongWordAt w (c :: rest)) || strongSearchAux w (isWordCharB c) rest

/-- Tokenizer accumulator: `cur` holds the (reversed) token in progress. -/
def tokensAux : List Char → List Char → List (List Char)
  | cur, [] => if cur.isEmpty then [] else [cur.reverse]
  | cur, c :: rest =>
    if isTokenChar c then tokensAux (c :: cur) rest
    else if cur.isEmpty then tokensAux [] rest
    else cur.reverse :: tokensAux [] rest

/-- Tokenizer `re.findall(r"[A-Za-zА-Яа-яЁё0-9]+", s)`: maximal runs of
token characters. -/
def tokens (s : List Char) : List (List Char) := tokensAux [] s

/-- Python `str.lstrip()`. -/
def stripL (s : List Char) : List Char := s.dropWhile isSpaceB

/-- Python `str.rstrip()`. -/
def stripR (s : List Char) : List Char := (s.reverse.dropWhile isSpaceB).reverse

/-- Python `str.strip()`. -/
def strip (s : List Char) : List Char := stripR (stripL s)

/-- The regex `https?://` (`URL_REGEX`, compiled case-sensitively). -/
def urlSearch (s : List Char) : Bool :=
  containsB ("http://".data) s || containsB ("https://".data) s

/-- Sensational keyword list `SENSATIONAL` from the source. -/
def SENSATIONAL : List String :=
  ["ШОК", "СРОЧНО", "НЕВЕРОЯТНО", "СЕНСАЦИЯ", "РАЗОБЛАЧЕНО", "СКАНДАЛ", "EXCLUSIVE", "BREAKING"]

/-- The four `SPACE_FAKE_TELLS` red-flag matchers, in source order:
`плоская\s+земля`, `рептилоид`, `\bНЛО\b`, `заговор`, each applied with
`re.IGNORECASE` (modelled by matching lowered pattern on lowered text). -/
def SPACE_FAKE_TELLS : List (List Char → Bool) :=
  [searchFlatEarth, containsB ("рептилоид".data), searchWord ("нло".data),
   containsB ("заговор".data)]

/-- Whether the `i`-th red-flag pattern matches the lowered text. -/
def tellAt (i : Nat) (lc : List Char) : Bool :=
  (SPACE_FAKE_TELLS.getD i (fun _ => false)) lc

/-- Alternatives of the contextual rule `\b(сенсация|шок|эксклюзив)\b`. -/
def CONTEXT_WORDS : List (List Char) :=
  ["сенсация".data, "шок".data, "эксклюзив".data]

/-- Rejection/purge threshold `FAKE_THRESHOLD` (70.0). -/
def FAKE_THRESHOLD : ℚ := 70

/-- The title of end-to-end scenario A from the spec. -/
def TITLE_A : String := "СРОЧНО!!! ШОК: обнаружен рептилоид на Марсе!!!"

/-- Sensational-keyword component of the score: +10 per listed keyword
occurring (case-insensitively) in the combined text. -/
def sensScore (s : List Char) : ℚ :=
  10 * (SENSATIONAL.countP (fun w => containsB (lowerStr w.data) (lowerStr s)) : ℚ)

/-- Red-flag component of the score: +18 per matching listed pattern. -/
def tellsScore (s : List Char) : ℚ :=
  18 * ((List.range 4).countP (fun i => tellAt i (lowerStr s)) : ℚ)

/-- Missing-source component: +12 when no `https?://` substring occurs. -/
def urlScore (s : List Char) : ℚ := if urlSearch s then 0 else 12

/-- Exclamation-mark component: `min(excls * 2.0, 20)`. -/
def exclScore (s : List Char) : ℚ := min ((s.count '!' : ℚ) * 2) 20

/-- Question-mark component: `min(ques * 1.5, 15)`. -/
def quesScore (s : List Char) : ℚ := min ((s.count '?' : ℚ) * (3 / 2)) 15

/-- Shouting-words component: `min(ratio * 120, 25)` where `ratio` is the
share of all-uppercase tokens of length at least 4, guarded by `if words:`. -/
def capsScore (s : List Char) : ℚ :=
  let ws := tokens s
  if ws.isEmpty then 0
  else min (((ws.countP isUpperWord : ℚ) / ((max 1 ws.length : ℕ) : ℚ)) * 120) 25

/-- Average token length `sum(len(w)) / max(1, len(words))`. -/
def avgLen (s : List Char) : ℚ :=
  (((tokens s).map List.length).sum : ℚ) / ((max 1 (tokens s).length : ℕ) : ℚ)

/-- Short-text component: +6 when the combined text is under 280 chars. -/
def lenScore (s : List Char) : ℚ := if s.length < 280 then 6 else 0

/-- Low-richness component: +5 when the average token length is below 4. -/
def avgScore (s : List Char) : ℚ := if avgLen s < 4 then 5 else 0

/-- Whether the contextual rule `\b(сенсация|шок|эксклюзив)\b` fires. -/
def rule7Hit (s : List Char) : Bool :=
  CONTEXT_WORDS.any (fun w => searchWord w (lowerStr s))

/-- Contextual-rule component: +7 when the rule fires. -/
def rule7Score (s : List Char) : ℚ := if rule7Hit s then 7 else 0

/-- The combined text `(title + "\n" + text).strip()`. -/
def combinedOf (text title : List Char) : List Char :=
  strip (title ++ '\n' :: text)

/-- The scorer `improved_fake_score(text, title)` of `src/app.py`
(lines 166-216): empty text scores 0; otherwise the additive components
are summed and the result clamped to `[0, 100]`. -/
def improvedFakeScoreL (text title : List Char) : ℚ :=
  if text.isEmpty then 0
  else
    let s := combinedOf text title
    max 0 (min 100 (sensScore s + tellsScore s + urlScore s + exclScore s +
      quesScore s + capsScore s + lenScore s + avgScore s + rule7Score s))

/-- String-level wrapper of the scorer, keeping the source's name. -/
def improved_fake_score (text : String) (title : String := "") : ℚ :=
  improvedFakeScoreL text.data title.data

/-- One stored news record (row of the `news` table). -/
structure NewsRow where
  id : Nat
  title : String
  author : String
  content : String
  image : Option String
  audio : Option String
  created_at : String
  fake_score : ℚ
deriving DecidableEq, Repr

/-- Whether a stored row is over the purge threshold (`fake_score > 70`). -/
def overThreshold (r : NewsRow) : Bool := decide (FAKE_THRESHOLD < r.fake_score)

/-- Best-effort file deletion (`os.remove` inside `try/except: pass`,
optionally guarded by `os.path.exists`): a missing file or a failing
deletion leaves the file list unchanged and raises nothing. `failing`
is the oracle of deletions that would raise. -/
def tryRemove (fs : List String) (failing : String → Bool) (name : String) : List String :=
  if name ∈ fs ∧ failing name = false then fs.erase name else fs

/-- Best-effort deletion of an optional media reference (`if r["image"]: ...`). -/
def removeOpt (fs : List String) (failing : String → Bool) : Option String → List String
  | none => fs
  | some n => tryRemove fs failing n

/-- The sweep `cleanup_fakes()` of `src/app.py` (lines 278-306): select
the rows with `fake_score > FAKE_THRESHOLD`; if there are none, return
unchanged; otherwise best-effort-delete each selected row's media files
and then delete all over-threshold rows from the store. -/
def cleanup_fakes (db : List NewsRow) (fs : List String) (failing : String → Bool) :
    List NewsRow × List String :=
  if (db.filter overThreshold).isEmpty then (db, fs)
  else
    (db.filter (fun r => !overThreshold r),
     (db.filter overThreshold).foldl
       (fun acc r => removeOpt (removeOpt acc failing r.image) failing r.audio) fs)

/-- Outcome of the submission decision of `add_news`. -/
structure SubmitOutcome where
  db : List NewsRow
  fs : List String
  rejected : Bool
  score : ℚ
deriving DecidableEq, Repr

/-- The decision segment of the handler `add_news` of `src/app.py`
(lines 764-790), reached after form validation (title and content
nonempty) and media staging: compute `score = improved_fake_score(content,
title)`; if `score > FAKE_THRESHOLD`, best-effort-delete the staged media
and reject; otherwise insert the record carrying the computed score. -/
def add_news (db : List NewsRow) (fs : List String) (failing : String → Bool)
    (title author content : String) (image_name audio_name : Option String)
    (created_at : String) (nid : Nat) : SubmitOutcome :=
  let score := improved_fake_score content title
  if FAKE_THRESHOLD < score then
    { db := db,
      fs := removeOpt (removeOpt fs failing image_name) failing audio_name,
      rejected := true, score := score }
  else
    let row : NewsRow :=
      { id := nid, title := title, author := author, content := content,
        image := image_name, audio := audio_name, created_at := created_at,
        fake_score := score }
    { db := db ++ [row], fs := fs, rejected := false, score := score }

/-- Synodic month length `SYNODIC = 29.530588853` days. -/
def SYNODIC : ℚ := 29530588853 / 1000000000

/-- The eight phase names `PHASE_NAMES`, starting at new moon. -/
def PHASE_NAMES : List String :=
  ["Новолуние", "Растущий серп", "Первая четверть", "Растущая луна",
   "Полнолуние", "Убывающая луна", "Последняя четверть", "Стареющий серп"]

/-- Python `x % m` on numbers (sign follows the divisor). -/
def pymod (x m : ℚ) : ℚ := x - m * ⌊x / m⌋

/-- Elapsed days since the epoch, from elapsed seconds
(`(now - EPOCH).total_seconds() / 86400.0`). -/
def moonDays (sec : ℚ) : ℚ := sec / 86400

/-- Cycle fraction `(days % SYNODIC) / SYNODIC` of `moon_phase_info`. -/
def moonCycle (sec : ℚ) : ℚ := pymod (moonDays sec) SYNODIC / SYNODIC

/-- Illumination fraction `0.5 * (1 - cos(2 * pi * cycle))`. -/
noncomputable def moonIllum (sec : ℚ) : ℝ :=
  0.5 * (1 - Real.cos (2 * Real.pi * ((moonCycle sec : ℚ) : ℝ)))

/-- Phase bucket `int(cycle * 8 + 0.5) % 8` (the argument is nonnegative,
so Python's truncation agrees with the floor). -/
def moonIdx (sec : ℚ) : ℤ := ⌊moonCycle sec * 8 + 1 / 2⌋ % 8

/-- Phase name `PHASE_NAMES[idx]` of `moon_phase_info`. -/
def moonName (sec : ℚ) : String := PHASE_NAMES.getD (moonIdx sec).toNat ""

/-! ### Helper lemmas about the sweep -/

/-- The store component of a sweep, by cases on the early return. -/
lemma cleanup_fst (db : List NewsRow) (fs : List String) (failing : String → Bool) :
    (cleanup_fakes db fs failing).1 =
      if (db.filter overThreshold).isEmpty then db
      else db.filter (fun r => !overThreshold r) := by
  unfold cleanup_fakes
  split <;> rfl

/-- Every record surviving a sweep is at or below the threshold. -/
lemma mem_cleanup_not_over {db : List NewsRow} {fs : List String} {failing : String → Bool}
    {r : NewsRow} (hmem : r ∈ (cleanup_fakes db fs failing).1) : overThreshold r = false := by
  rw [cleanup_fst] at hmem
  split at hmem
  case isTrue h =>
    cases ho : overThreshold r
    · rfl
    · exfalso
      have hr : r ∈ db.filter overThreshold := List.mem_filter.2 ⟨hmem, ho⟩
      rw [List.isEmpty_iff.1 h] at hr
      cases hr
  case isFalse h =>
    have := (List.mem_filter.1 hmem).2
    simpa using this

/-- After a sweep, the over-threshold selection is empty. -/
lemma cleanup_fst_no_over (db : List NewsRow) (fs : List String) (failing : String → Bool) :
    (cleanup_fakes db fs failing).1.filter overThreshold = [] := by
  refine List.filter_eq_nil_iff.2 fun a ha => ?_
  simp [mem_cleanup_not_over ha]

/-- A sweep of a store with no over-threshold record changes nothing. -/
lemma cleanup_of_no_over {db : List NewsRow} (fs : List String) (failing : String → Bool)
    (h : db.filter overThreshold = []) : cleanup_fakes db fs failing = (db, fs) := by
  unfold cleanup_fakes
  rw [h]
  rfl

/-- C2: after any cleanup sweep, no record whose frozen fake-score is
strictly greater than `FAKE_THRESHOLD` exists in the store. -/
theorem C2_no_over_threshold_after_sweep (db : List NewsRow) (fs : List String)
    (failing : String → Bool) (r : NewsRow)
    (hmem : r ∈ (cleanup_fakes db fs failing).1) :
    ¬ FAKE_THRESHOLD < r.fake_score := by
  have h := mem_cleanup_not_over hmem
  simpa [overThreshold] using h

/-- C2 witness: on a concrete store with one kept and one purged record,
the surviving record is at or below the threshold. -/
theorem C2_no_over_threshold_after_sweep_witness :
    (⟨1, "a", "b", "c", none, none, "t", 10⟩ : NewsRow) ∈
      (cleanup_fakes [⟨1, "a", "b", "c", none, none, "t", 10⟩,
        ⟨2, "d", "e", "f", some "x.png", none, "t", 80⟩] ["x.png"] (fun _ => false)).1 ∧
    ¬ FAKE_THRESHOLD < (10 : ℚ) :=
  ⟨by decide,
   C2_no_over_threshold_after_sweep [⟨1, "a", "b", "c", none, none, "t", 10⟩,
     ⟨2, "d", "e", "f", some "x.png", none, "t", 80⟩] ["x.png"] (fun _ => false)
     ⟨1, "a", "b", "c", none, none, "t", 10⟩ (by decide)⟩

/-- C5: the sweep is idempotent: immediately re-running it selects nothing
to purge and leaves the state fixed, and every record selected by the
first run is absent afterwards. -/
theorem C5_sweep_idempotent (db : List NewsRow) (fs : List String) (failing : String → Bool) :
    ((cleanup_fakes db fs failing).1.filter overThreshold = [] ∧
      cleanup_fakes (cleanup_fakes db fs failing).1 (cleanup_fakes db fs failing).2 failing =
        cleanup_fakes db fs failing) ∧
    ∀ r ∈ db.filter overThreshold, r ∉ (cleanup_fakes db fs failing).1 := by
  refine ⟨⟨cleanup_fst_no_over db fs failing, ?_⟩, ?_⟩
  · rw [cleanup_of_no_over _ failing (cleanup_fst_no_over db fs failing)]
  · intro r hr hmem
    have hover := (List.mem_filter.1 hr).2
    rw [mem_cleanup_not_over hmem] at hover
    cases hover

/-- C5 witness: one over-threshold record is purged by the first sweep,
absent afterwards, and the second sweep selects nothing. -/
theorem C5_sweep_idempotent_witness :
    ((cleanup_fakes [⟨2, "d", "e", "f", none, none, "t", 80⟩] [] (fun _ => false)).1.filter
        overThreshold = []) ∧
    (⟨2, "d", "e", "f", none, none, "t", 80⟩ : NewsRow) ∈
        ([⟨2, "d", "e", "f", none, none, "t", 80⟩] : List NewsRow).filter overThreshold ∧
    (⟨2, "d", "e", "f", none, none, "t", 80⟩ : NewsRow) ∉
      (cleanup_fakes [⟨2, "d", "e", "f", none, none, "t", 80⟩] [] (fun _ => false)).1 :=
  ⟨(C5_sweep_idempotent [⟨2, "d", "e", "f", none, none, "t", 80⟩] [] (fun _ => false)).1.1,
   by decide,
   (C5_sweep_idempotent [⟨2, "d", "e", "f", none, none, "t", 80⟩] [] (fun _ => false)).2
     ⟨2, "d", "e", "f", none, none, "t", 80⟩ (by decide)⟩

/-- C6: for every over-threshold record, the sweep deletes the record
whatever the media state and whatever deletions fail (missing files and
failing deletions are swallowed, never aborting record deletion), and the
resulting store does not depend on the file state or the failure oracle. -/
theorem C6_media_failure_never_blocks_purge (db : List NewsRow) (fs : List String)
    (failing : String → Bool) (r : NewsRow) (hmem : r ∈ db)
    (hover : FAKE_THRESHOLD < r.fake_score) :
    r ∉ (cleanup_fakes db fs failing).1 ∧
    (cleanup_fakes db fs failing).1 = (cleanup_fakes db [] (fun _ => true)).1 := by
  constructor
  · intro hr
    have := mem_cleanup_not_over hr
    simp [overThreshold] at this
    exact absurd hover (by simpa using this)
  · rw [cleanup_fst, cleanup_fst]

/-- C6 witness: a record with a missing image file and an always-failing
deletion oracle is still purged. -/
theorem C6_media_failure_never_blocks_purge_witness :
    (⟨2, "d", "e", "f", some "gone.png", some "gone.mp3", "t", 80⟩ : NewsRow) ∈
        ([⟨2, "d", "e", "f", some "gone.png", some "gone.mp3", "t", 80⟩] : List NewsRow) ∧
    FAKE_THRESHOLD < (80 : ℚ) ∧
    (⟨2, "d", "e", "f", some "gone.png", some "gone.mp3", "t", 80⟩ : NewsRow) ∉
      (cleanup_fakes [⟨2, "d", "e", "f", some "gone.png", some "gone.mp3", "t", 80⟩] []
        (fun _ => true)).1 :=
  ⟨by decide, by decide,
   (C6_media_failure_never_blocks_purge
     [⟨2, "d", "e", "f", some "gone.png", some "gone.mp3", "t", 80⟩] [] (fun _ => true)
     ⟨2, "d", "e", "f", some "gone.png", some "gone.mp3", "t", 80⟩ (by decide) (by decide)).1⟩

/-- C1: the submission handler rejects if and only if the computed fake
score is strictly greater than the threshold (equality accepted), and on
accept the record is created carrying that score. -/
theorem C1_submit_rejects_iff_over_threshold (db : List NewsRow) (fs : List String)
    (failing : String → Bool) (title author content : String)
    (image_name audio_name : Option String) (created_at : String) (nid : Nat)
    (hcontent : content ≠ "") :
    ((add_news db fs failing title author content image_name audio_name created_at nid).rejected
        = true ↔ FAKE_THRESHOLD < improved_fake_score content title) ∧
    (improved_fake_score content title ≤ FAKE_THRESHOLD →
      (add_news db fs failing title author content image_name audio_name created_at nid).db =
        db ++ [{ id := nid, title := title, author := author, content := content,
                 image := image_name, audio := audio_name, created_at := created_at,
                 fake_score := improved_fake_score content title }]) := by
  by_cases h : FAKE_THRESHOLD < improved_fake_score content title
  · exact ⟨by simp [add_news, h], fun hle => absurd h (not_lt.2 hle)⟩
  · exact ⟨by simp [add_news, h], fun _ => by simp [add_news, h]⟩

/-- C1 witness: a concrete benign submission scores 18 ≤ 70 and is
published with its score stored on the new record. -/
theorem C1_submit_rejects_iff_over_threshold_witness :
    ("тест" : String) ≠ "" ∧
    (add_news [] [] (fun _ => false) "тест" "авт" "тест" none none "t0" 1).db =
      [] ++ [{ id := 1, title := "тест", author := "авт", content := "тест",
               image := none, audio := none, created_at := "t0",
               fake_score := improved_fake_score "тест" "тест" }] :=
  ⟨by decide,
   (C1_submit_rejects_iff_over_threshold [] [] (fun _ => false) "тест" "авт" "тест"
     none none "t0" 1 (by decide)).2 (by with_unfolding_all decide)⟩

/-- C3: for every pair of text inputs the scorer returns a value in the
closed interval `[0, 100]`, and scoring the empty body with the empty
title returns exactly 0. -/
theorem C3_score_clamped_and_empty_zero (text title : String) :
    0 ≤ improved_fake_score text title ∧ improved_fake_score text title ≤ 100 ∧
      improved_fake_score "" "" = 0 := by
  refine ⟨?_, ?_, rfl⟩
  · unfold improved_fake_score improvedFakeScoreL
    split
    · norm_num
    · exact le_max_left 0 _
  · unfold improved_fake_score improvedFakeScoreL
    split
    · norm_num
    · exact max_le (by norm_num) (min_le_left _ _)

/-- C10: for every title, even one full of sensational keywords and
red-flag patterns, scoring with an empty body returns exactly 0: the
body-emptiness check alone decides the empty-input case. -/
theorem C10_empty_body_always_zero (title : String) :
    improved_fake_score "" title = 0 ∧ ¬ 0 < improved_fake_score "" title :=
  ⟨rfl, by rw [(rfl : improved_fake_score "" title = 0)]; exact lt_irrefl 0⟩

/-! ### Helper lemmas about the moon phase -/

/-- The cycle fraction is the fractional part of `days / SYNODIC`. -/
lemma moonCycle_fract (sec : ℚ) : moonCycle sec = Int.fract (moonDays sec / SYNODIC) := by
  have hS : SYNODIC ≠ 0 := by norm_num [SYNODIC]
  unfold moonCycle pymod Int.fract
  field_simp

/-- C8: the moon-phase computation returns the fractional cycle position
in `[0, 1)`, the illumination `0.5 * (1 - cos(2 * pi * cycle))`, and the
phase name at index `int(cycle * 8 + 0.5) % 8` of the eight-name list;
at cycle 0 the name is the new-moon bucket and the illumination is 0. -/
theorem C8_moon_phase_formulas (sec : ℚ) :
    moonCycle sec = Int.fract (moonDays sec / SYNODIC) ∧
    0 ≤ moonCycle sec ∧ moonCycle sec < 1 ∧
    moonIllum sec = 0.5 * (1 - Real.cos (2 * Real.pi * ((moonCycle sec : ℚ) : ℝ))) ∧
    0 ≤ moonIdx sec ∧ moonIdx sec < 8 ∧
    moonName sec = PHASE_NAMES.getD (⌊moonCycle sec * 8 + 1 / 2⌋ % 8).toNat "" ∧
    (moonCycle sec = 0 → moonName sec = "Новолуние" ∧ moonIllum sec = 0) := by
  refine ⟨moonCycle_fract sec, ?_, ?_, rfl, ?_, ?_, rfl, fun hc => ⟨?_, ?_⟩⟩
  · rw [moonCycle_fract]; exact Int.fract_nonneg _
  · rw [moonCycle_fract]; exact Int.fract_lt_one _
  · exact Int.emod_nonneg _ (by norm_num)
  · exact Int.emod_lt_of_pos _ (by norm_num)
  · unfold moonName moonIdx
    rw [hc]
    with_unfolding_all decide
  · unfold moonIllum
    rw [hc]
    push_cast
    simp

/-- C8 witness: at the epoch instant itself the cycle is exactly 0, the
phase name is the new-moon bucket, and the illumination is 0. -/
theorem C8_moon_phase_formulas_witness :
    moonCycle 0 = 0 ∧ moonName 0 = "Новолуние" ∧ moonIllum 0 = 0 :=
  ⟨by with_unfolding_all decide,
   ((C8_moon_phase_formulas 0).2.2.2.2.2.2.2 (by with_unfolding_all decide)).1,
   ((C8_moon_phase_formulas 0).2.2.2.2.2.2.2 (by with_unfolding_all decide)).2⟩

/-- C9: shifting the instant by exactly one synodic period leaves the
phase name identical and the illumination percentage equal (difference 0,
well within the spec's 0.1 percentage-point tolerance). -/
theorem C9_moon_periodicity (sec : ℚ) :
    moonName (sec + SYNODIC * 86400) = moonName sec ∧
    moonIllum (sec + SYNODIC * 86400) = moonIllum sec ∧
    |moonIllum (sec + SYNODIC * 86400) * 100 - moonIllum sec * 100| ≤ 1 / 10 := by
  have hS : SYNODIC ≠ 0 := by norm_num [SYNODIC]
  have hcycle : moonCycle (sec + SYNODIC * 86400) = moonCycle sec := by
    rw [moonCycle_fract, moonCycle_fract]
    have hdays : moonDays (sec + SYNODIC * 86400) / SYNODIC = moonDays sec / SYNODIC + 1 := by
      unfold moonDays
      field_simp
      ring
    rw [hdays]
    exact_mod_cast Int.fract_add_int (moonDays sec / SYNODIC) 1
  have hname : moonName (sec + SYNODIC * 86400) = moonName sec := by
    unfold moonName moonIdx
    rw [hcycle]
  have hillum : moonIllum (sec + SYNODIC * 86400) = moonIllum sec := by
    unfold moonIllum
    rw [hcycle]
  refine ⟨hname, hillum, ?_⟩
  rw [hillum, sub_self, abs_zero]
  norm_num

/-! ### Helper lemmas for the red-flag component -/

/-- Flipping exactly one element of a duplicate-free list from unsatisfied
to satisfied raises the count by one. -/
lemma countP_flip_one {α : Type} [DecidableEq α] {l : List α} (hl : l.Nodup)
    {p q : α → Bool} {j : α} (hj : j ∈ l) (hpj : p j = false) (hqj : q j = true)
    (hrest : ∀ i ∈ l, i ≠ j → q i = p i) : l.countP q = l.countP p + 1 := by
  induction l with
  | nil => cases hj
  | cons a t ih =>
    rcases List.mem_cons.1 hj with h | h
    · subst h
      rw [List.countP_cons, List.countP_cons, hpj, hqj]
      have heq : ∀ x ∈ t, q x = p x := fun x hx =>
        hrest x (List.mem_cons_of_mem _ hx)
          (by rintro rfl; exact (List.nodup_cons.1 hl).1 hx)
      rw [List.countP_congr (fun x hx => by rw [heq x hx])]
      simp
    · have hne : a ≠ j := by rintro rfl; exact (List.nodup_cons.1 hl).1 h
      have ht := ih (List.nodup_cons.1 hl).2 h
        (fun i hi hij => hrest i (List.mem_cons_of_mem _ hi) hij)
      rw [List.countP_cons, List.countP_cons, hrest a (List.mem_cons_self a t) hne, ht]
      omega

/-- C4 counterexample: the text `аб вг де рептилоид` already matches the
listed red-flag pattern `рептилоид` and scores 41; appending one more
instance of that pattern lowers the score to 36 (the appended token lifts
the average token length over the low-richness cutoff), refuting both
"never decreases" and "a duplicate leaves the score unchanged"; appending
the new distinct listed pattern `заговор` yields 54 = 41 + 13, not 41 + 18,
refuting "increases by that pattern's weight". -/
theorem C4_counterexample :
    ("аб вг де рептилоид рептилоид" : String) = "аб вг де рептилоид" ++ " рептилоид" ∧
    ("аб вг де рептилоид заговор" : String) = "аб вг де рептилоид" ++ " заговор" ∧
    tellAt 1 (lowerStr ("аб вг де рептилоид".data)) = true ∧
    tellAt 3 (lowerStr ("аб вг де рептилоид".data)) = false ∧
    improved_fake_score "аб вг де рептилоид" "" = 41 ∧
    improved_fake_score "аб вг де рептилоид рептилоид" "" = 36 ∧
    improved_fake_score "аб вг де рептилоид рептилоид" "" <
      improved_fake_score "аб вг де рептилоид" "" ∧
    improved_fake_score "аб вг де рептилоид заговор" "" = 54 ∧
    improved_fake_score "аб вг де рептилоид заговор" "" ≠
      improved_fake_score "аб вг де рептилоид" "" + 18 := by
  refine ⟨?_, ?_, ?_, ?_, ?_, ?_, ?_, ?_, ?_⟩ <;> with_unfolding_all decide

/-- C4 (amended): the red-flag component of the score is deduplicated and
additive in the set of matched listed patterns: it never decreases when
matches are preserved, it is unchanged when the matched-pattern set is
unchanged (so a duplicate of an already-matching pattern adds nothing to
it), and it grows by exactly the weight 18 when exactly one new distinct
pattern becomes matched; the total score itself can move either way,
because appended text also shifts the length, punctuation and
capitalization signals. -/
theorem C4_amended_red_flag_component (s t : List Char)
    (hmono : ∀ i ∈ List.range 4, tellAt i (lowerStr s) = true → tellAt i (lowerStr t) = true) :
    tellsScore s ≤ tellsScore t ∧
    ((∀ i ∈ List.range 4, tellAt i (lowerStr t) = tellAt i (lowerStr s)) →
      tellsScore t = tellsScore s) ∧
    (∀ j ∈ List.range 4, tellAt j (lowerStr s) = false → tellAt j (lowerStr t) = true →
      (∀ i ∈ List.range 4, i ≠ j → tellAt i (lowerStr t) = tellAt i (lowerStr s)) →
      tellsScore t = tellsScore s + 18) := by
  refine ⟨?_, ?_, ?_⟩
  · unfold tellsScore
    have h : (List.range 4).countP (fun i => tellAt i (lowerStr s)) ≤
        (List.range 4).countP (fun i => tellAt i (lowerStr t)) :=
      List.countP_mono_left fun i hi hp => hmono i hi hp
    exact mul_le_mul_of_nonneg_left (by exact_mod_cast h) (by norm_num)
  · intro hsame
    unfold tellsScore
    have h : (List.range 4).countP (fun i => tellAt i (lowerStr t)) =
        (List.range 4).countP (fun i => tellAt i (lowerStr s)) :=
      List.countP_congr fun i hi => by rw [hsame i hi]
    rw [h]
  · intro j hj hpj hqj hrest
    unfold tellsScore
    have h : (List.range 4).countP (fun i => tellAt i (lowerStr t)) =
        (List.range 4).countP (fun i => tellAt i (lowerStr s)) + 1 :=
      countP_flip_one (List.nodup_range 4) hj hpj hqj hrest
    rw [h]
    push_cast
    ring

/-- C4 amended witness: `рептилоид` against `рептилоид заговор`: all old
matches are preserved, and `заговор` (pattern 3) is the single new match,
raising the red-flag component by exactly its weight 18. -/
theorem C4_amended_red_flag_component_witness :
    (∀ i ∈ List.range 4, tellAt i (lowerStr ("рептилоид".data)) = true →
      tellAt i (lowerStr ("рептилоид заговор".data)) = true) ∧
    tellsScore ("рептилоид".data) ≤ tellsScore ("рептилоид заговор".data) ∧
    tellsScore ("рептилоид заговор".data) = tellsScore ("рептилоид".data) + 18 :=
  ⟨by decide,
   (C4_amended_red_flag_component ("рептилоид".data) ("рептилоид заговор".data) (by decide)).1,
   (C4_amended_red_flag_component ("рептилоид".data) ("рептилоид заговор".data)
     (by decide)).2.2 3 (by decide) (by decide) (by decide) (by decide)⟩

/-! ### String-combinatorics helper lemmas for the scenario-A analysis -/

/-- A prefix match survives appending on the right. -/
lemma isPrefixOfB_append {p s : List Char} (h : isPrefixOfB p s = true) (u : List Char) :
    isPrefixOfB p (s ++ u) = true := by
  induction p generalizing s with
  | nil => rfl
  | cons a as ih =>
    cases s with
    | nil => cases h
    | cons b bs =>
      simp only [List.cons_append, isPrefixOfB, Bool.and_eq_true] at h ⊢
      exact ⟨h.1, ih h.2⟩

/-- A prefix is no longer than the text it matches. -/
lemma isPrefixOfB_length {p s : List Char} (h : isPrefixOfB p s = true) :
    p.length ≤ s.length := by
  induction p generalizing s with
  | nil => simp
  | cons a as ih =>
    cases s with
    | nil => cases h
    | cons b bs =>
      simp only [isPrefixOfB, Bool.and_eq_true] at h
      simpa [List.length_cons] using Nat.succ_le_succ (ih h.2)

/-- The empty pattern occurs in every text. -/
lemma containsB_nil_pat (s : List Char) : containsB [] s = true := by
  cases s <;> rfl

/-- A substring occurrence survives appending on the right. -/
lemma containsB_append_right {p s : List Char} (h : containsB p s = true) (u : List Char) :
    containsB p (s ++ u) = true := by
  induction s with
  | nil =>
    have hp : p = [] := by simpa [containsB, List.isEmpty_iff] using h
    subst hp
    exact containsB_nil_pat u
  | cons c rest ih =>
    simp only [containsB, Bool.or_eq_true] at h
    simp only [List.cons_append, containsB, Bool.or_eq_true]
    rcases h with h | h
    · exact Or.inl (by simpa [List.cons_append] using isPrefixOfB_append h u)
    · exact Or.inr (ih h)

/-- If a pattern starting with `h0` occurs in `a ++ b` but `h0` does not
occur in `a` at all, the occurrence lies inside `b`. -/
lemma containsB_head_notin {h0 : Char} {p : List Char} : ∀ {a : List Char} {b : List Char},
    (∀ x ∈ a, x ≠ h0) → containsB (h0 :: p) (a ++ b) = true → containsB (h0 :: p) b = true := by
  intro a
  induction a with
  | nil => intro b _ h; simpa using h
  | cons c rest ih =>
    intro b hnot h
    simp only [List.cons_append, containsB, Bool.or_eq_true] at h
    rcases h with h | h
    · exfalso
      simp only [isPrefixOfB, Bool.and_eq_true, beq_iff_eq] at h
      exact hnot c (List.mem_cons_self c rest) h.1.symm
    · exact ih (fun x hx => hnot x (List.mem_cons_of_mem _ hx)) h

/-- Distribution of `dropWhile` over an append. -/
lemma dropWhileB_append (p : Char → Bool) (a b : List Char) :
    (a ++ b).dropWhile p =
      if (a.dropWhile p).isEmpty then b.dropWhile p else a.dropWhile p ++ b := by
  induction a with
  | nil => simp
  | cons c rest ih =>
    by_cases hc : p c
    · simpa [List.dropWhile_cons, hc] using ih
    · simp [List.dropWhile_cons, hc]

/-- Distribution of `rstrip` over an append. -/
lemma stripR_append (a b : List Char) :
    stripR (a ++ b) = if (stripR b).isEmpty then stripR a else a ++ stripR b := by
  have hcond : (List.dropWhile isSpaceB b.reverse).reverse.isEmpty =
      (List.dropWhile isSpaceB b.reverse).isEmpty := by
    cases List.dropWhile isSpaceB b.reverse <;> simp
  unfold stripR
  rw [List.reverse_append, dropWhileB_append, hcond]
  by_cases h : (b.reverse.dropWhile isSpaceB).isEmpty
  · rw [if_pos h, if_pos h]
  · rw [if_neg h, if_neg h, List.reverse_append, List.reverse_reverse]

/-- A text is its own `rstrip` followed by trailing whitespace. -/
lemma stripR_decomp (s : List Char) : ∃ u, s = stripR s ++ u := by
  refine ⟨(s.reverse.takeWhile isSpaceB).reverse, ?_⟩
  unfold stripR
  conv_lhs => rw [← s.reverse_reverse,
    ← List.takeWhile_append_dropWhile (p := isSpaceB) (l := s.reverse)]
  rw [List.reverse_append]

/-- `lstrip` does nothing when the first character is not whitespace. -/
lemma stripL_cons {c : Char} (s : List Char) (h : isSpaceB c = false) :
    stripL (c :: s) = c :: s := by
  simp [stripL, List.dropWhile_cons, h]

/-- An internally-bounded whole-word match survives appending. -/
lemma strongWordAt_append {w s : List Char} (b : List Char) (h : strongWordAt w s = true) :
    wordAt w (s ++ b) = true := by
  unfold strongWordAt at h
  unfold wordAt
  rw [Bool.and_eq_true] at h ⊢
  refine ⟨isPrefixOfB_append h.1 b, ?_⟩
  have hlen : w.length ≤ s.length := isPrefixOfB_length h.1
  rcases hd : s.drop w.length with _ | ⟨c, tail⟩
  · rw [hd] at h
    exact absurd h.2 (by simp)
  · rw [List.drop_append_eq_append_drop, hd]
    rw [hd] at h
    simpa using h.2

/-- An internally-bounded whole-word search hit survives appending. -/
lemma strongSearch_append {w : List Char} : ∀ {a : List Char} {prev : Bool} (b : List Char),
    strongSearchAux w prev a = true → searchWordAux w prev (a ++ b) = true := by
  intro a
  induction a with
  | nil => intro prev b h; cases h
  | cons c rest ih =>
    intro prev b h
    simp only [strongSearchAux, Bool.or_eq_true, Bool.and_eq_true] at h
    simp only [List.cons_append, searchWordAux, Bool.or_eq_true, Bool.and_eq_true]
    rcases h with ⟨hp, hs⟩ | h
    · exact Or.inl ⟨hp, by simpa [List.cons_append] using strongWordAt_append b hs⟩
    · exact Or.inr (ih b h)

/-- The tokenizer splits at an append whose left part ends in a
non-token character. -/
lemma tokensAux_append_sep (a0 : List Char) (ch : Char) (hch : isTokenChar ch = false) :
    ∀ (cur b : List Char),
      tokensAux cur ((a0 ++ [ch]) ++ b) = tokensAux cur (a0 ++ [ch]) ++ tokensAux [] b := by
  induction a0 with
  | nil =>
    intro cur b
    cases hcur : cur.isEmpty <;> simp [tokensAux, hch, hcur]
  | cons c a0t ih =>
    intro cur b
    by_cases hc : isTokenChar c = true
    · simpa [tokensAux, hc] using ih (c :: cur) b
    · cases hcur : cur.isEmpty
      · simpa [tokensAux, hc, hcur] using ih [] b
      · simpa [tokensAux, hc, hcur] using ih [] b

/-- Structure of the combined text for the scenario-A title: the title is
kept verbatim as a prefix, followed either by nothing (whitespace-only
body) or by the newline and the right-stripped body. -/
lemma combined_title_structure (body : List Char) :
    ∃ rest, combinedOf body TITLE_A.data = TITLE_A.data ++ rest ∧
      (rest = [] ∨ (rest = '\n' :: stripR body ∧ ∃ u, body = stripR body ++ u)) := by
  have hL : stripL (TITLE_A.data ++ '\n' :: body) = TITLE_A.data ++ '\n' :: body := by
    rw [show TITLE_A.data ++ '\n' :: body =
        'С' :: ("РОЧНО!!! ШОК: обнаружен рептилоид на Марсе!!!".data ++ '\n' :: body) from rfl]
    exact stripL_cons _ (by decide)
  have hmain : combinedOf body TITLE_A.data = stripR (TITLE_A.data ++ '\n' :: body) := by
    unfold combinedOf strip
    rw [hL]
  have hnl : stripR ('\n' :: body) = if (stripR body).isEmpty then [] else '\n' :: stripR body := by
    have h1 := stripR_append ['\n'] body
    rw [List.singleton_append] at h1
    rw [h1]
    by_cases h : (stripR body).isEmpty
    · rw [if_pos h, if_pos h]
      rfl
    · rw [if_neg h, if_neg h, List.singleton_append]
  have happ := stripR_append TITLE_A.data ('\n' :: body)
  by_cases h : (stripR body).isEmpty
  · have hns : stripR ('\n' :: body) = [] := by rw [hnl, if_pos h]
    refine ⟨[], ?_, Or.inl rfl⟩
    rw [hmain, happ, hns, if_pos (show ([] : List Char).isEmpty = true from rfl),
      List.append_nil]
    decide
  · have hns : stripR ('\n' :: body) = '\n' :: stripR body := by rw [hnl, if_neg h]
    refine ⟨'\n' :: stripR body, ?_, Or.inr ⟨rfl, stripR_decomp body⟩⟩
    rw [hmain, happ, hns, if_neg (by simp)]

/-- Lower-casing distributes over appends. -/
lemma lowerStr_append (a b : List Char) : lowerStr (a ++ b) = lowerStr a ++ lowerStr b := by
  simp [lowerStr]

/-- The sensational component is at least 20 whenever the scenario-A
title is a prefix of the combined text (`ШОК` and `СРОЧНО` both occur). -/
lemma sensScore_title_ge (rest : List Char) : 20 ≤ sensScore (TITLE_A.data ++ rest) := by
  unfold sensScore
  have h1 : containsB (lowerStr ("ШОК" : String).data)
      (lowerStr (TITLE_A.data ++ rest)) = true := by
    rw [lowerStr_append]
    exact containsB_append_right (by decide) _
  have h2 : containsB (lowerStr ("СРОЧНО" : String).data)
      (lowerStr (TITLE_A.data ++ rest)) = true := by
    rw [lowerStr_append]
    exact containsB_append_right (by decide) _
  rw [show SENSATIONAL = ["ШОК", "СРОЧНО"] ++
      ["НЕВЕРОЯТНО", "СЕНСАЦИЯ", "РАЗОБЛАЧЕНО", "СКАНДАЛ", "EXCLUSIVE", "BREAKING"] from rfl,
    List.countP_append]
  have h12 : List.countP (fun w => containsB (lowerStr w.data) (lowerStr (TITLE_A.data ++ rest)))
      ["ШОК", "СРОЧНО"] = 2 := by
    simp [List.countP_cons, h1, h2]
  rw [h12]
  have hge : (0:ℚ) ≤ (List.countP
      (fun w => containsB (lowerStr w.data) (lowerStr (TITLE_A.data ++ rest)))
      ["НЕВЕРОЯТНО", "СЕНСАЦИЯ", "РАЗОБЛАЧЕНО", "СКАНДАЛ", "EXCLUSIVE", "BREAKING"] : ℚ) := by
    positivity
  push_cast
  linarith

/-- The red-flag component is at least 18 whenever the scenario-A title
is a prefix of the combined text (`рептилоид` occurs). -/
lemma tellsScore_title_ge (rest : List Char) : 18 ≤ tellsScore (TITLE_A.data ++ rest) := by
  unfold tellsScore
  have h1 : tellAt 1 (lowerStr (TITLE_A.data ++ rest)) = true := by
    show containsB ("рептилоид".data) (lowerStr (TITLE_A.data ++ rest)) = true
    rw [lowerStr_append]
    exact containsB_append_right (by decide) _
  have hpos : 0 < (List.range 4).countP
      (fun i => tellAt i (lowerStr (TITLE_A.data ++ rest))) :=
    List.countP_pos_iff.2 ⟨1, by decide, h1⟩
  have h1q : (1:ℚ) ≤ ((List.range 4).countP
      (fun i => tellAt i (lowerStr (TITLE_A.data ++ rest))) : ℚ) := by
    exact_mod_cast hpos
  exact le_mul_of_one_le_right (by norm_num) h1q

/-- The exclamation component is at least 12 whenever the scenario-A
title is a prefix of the combined text (the title has six `!`). -/
lemma exclScore_title_ge (rest : List Char) : 12 ≤ exclScore (TITLE_A.data ++ rest) := by
  unfold exclScore
  have hcount : 6 ≤ (TITLE_A.data ++ rest).count '!' := by
    rw [List.count_append]
    have h6 : (TITLE_A.data).count '!' = 6 := by decide
    omega
  refine le_min ?_ (by norm_num)
  have hq : (6 : ℚ) ≤ ((TITLE_A.data ++ rest).count '!' : ℚ) := by exact_mod_cast hcount
  linarith

/-- The question-mark component is nonnegative. -/
lemma quesScore_nonneg (s : List Char) : 0 ≤ quesScore s := by
  unfold quesScore
  exact le_min (by positivity) (by norm_num)

/-- The short-text component is nonnegative. -/
lemma lenScore_nonneg (s : List Char) : 0 ≤ lenScore s := by
  unfold lenScore
  split <;> norm_num

/-- The low-richness component is nonnegative. -/
lemma avgScore_nonneg (s : List Char) : 0 ≤ avgScore s := by
  unfold avgScore
  split <;> norm_num

/-- A pattern starting with a character that occurs neither in the
scenario-A title nor as a newline, and not occurring in the body, does
not occur in the combined text. -/
lemma pattern_absent_combined {p body rest : List Char}
    (hT : ∀ x ∈ TITLE_A.data, x ≠ 'h')
    (hb : containsB ('h' :: p) body = false)
    (hrest : rest = [] ∨ (rest = '\n' :: stripR body ∧ ∃ u, body = stripR body ++ u)) :
    containsB ('h' :: p) (TITLE_A.data ++ rest) = false := by
  cases hc : containsB ('h' :: p) (TITLE_A.data ++ rest)
  · rfl
  · exfalso
    have h2 : containsB ('h' :: p) rest = true := containsB_head_notin hT hc
    rcases hrest with rfl | ⟨hr, u, hu⟩
    · simp [containsB] at h2
    · subst hr
      have h3 : containsB ('h' :: p) (stripR body) = true := by
        rw [show ('\n' :: stripR body) = ['\n'] ++ stripR body from rfl] at h2
        exact containsB_head_notin (by decide) h2
      have h4 : containsB ('h' :: p) body = true := by
        rw [hu]
        exact containsB_append_right h3 u
      rw [h4] at hb
      cases hb

/-- The missing-source component is exactly 12 for a URL-free body under
the scenario-A title (the title contains no `h` at all). -/
lemma urlScore_combined (body rest : List Char) (hurl : urlSearch body = false)
    (hrest : rest = [] ∨ (rest = '\n' :: stripR body ∧ ∃ u, body = stripR body ++ u)) :
    urlScore (TITLE_A.data ++ rest) = 12 := by
  unfold urlSearch at hurl
  rw [Bool.or_eq_false_iff] at hurl
  have hA : containsB ("http://".data) (TITLE_A.data ++ rest) = false :=
    pattern_absent_combined (by decide) hurl.1 hrest
  have hB : containsB ("https://".data) (TITLE_A.data ++ rest) = false :=
    pattern_absent_combined (by decide) hurl.2 hrest
  unfold urlScore urlSearch
  rw [hA, hB]
  simp

/-- The contextual-rule component is exactly 7 whenever the scenario-A
title is a prefix of the combined text (`ШОК` is a whole word there with
its boundary inside the title). -/
lemma rule7Score_title (rest : List Char) : rule7Score (TITLE_A.data ++ rest) = 7 := by
  have hw : searchWord ("шок".data) (lowerStr (TITLE_A.data ++ rest)) = true := by
    unfold searchWord
    rw [lowerStr_append]
    exact strongSearch_append (lowerStr rest) (by decide)
  have hhit : rule7Hit (TITLE_A.data ++ rest) = true := by
    unfold rule7Hit
    exact List.any_eq_true.2 ⟨"шок".data, by decide, hw⟩
  unfold rule7Score
  simp [hhit]

/-- Tokenization of the combined text under the scenario-A title: the six
title tokens followed by the tokens of the remainder. -/
lemma tokens_title_append (rest : List Char) :
    tokens (TITLE_A.data ++ rest) =
      ["СРОЧНО".data, "ШОК".data, "обнаружен".data, "рептилоид".data, "на".data,
       "Марсе".data] ++ tokens rest := by
  unfold tokens
  rw [show TITLE_A.data = "СРОЧНО!!! ШОК: обнаружен рептилоид на Марсе!!".data ++ ['!']
    from rfl]
  rw [tokensAux_append_sep _ '!' (by decide) [] rest]
  congr 1

/-- The capitalization component strictly exceeds 1 whenever the combined
text under the scenario-A title has fewer than 120 tokens (the title
contributes the all-caps token `СРОЧНО`). -/
lemma capsScore_title_gt_one (rest : List Char)
    (hN : (tokens (TITLE_A.data ++ rest)).length < 120) :
    1 < capsScore (TITLE_A.data ++ rest) := by
  simp only [capsScore]
  rw [tokens_title_append] at hN ⊢
  rw [if_neg (by simp)]
  refine lt_min ?_ (by norm_num)
  have hcount : 1 ≤ (["СРОЧНО".data, "ШОК".data, "обнаружен".data, "рептилоид".data,
      "на".data, "Марсе".data] ++ tokens rest).countP isUpperWord := by
    rw [List.countP_append]
    have h1 : (["СРОЧНО".data, "ШОК".data, "обнаружен".data, "рептилоид".data,
        "на".data, "Марсе".data] : List (List Char)).countP isUpperWord = 1 := by decide
    omega
  have hmaxlt : max 1 (["СРОЧНО".data, "ШОК".data, "обнаружен".data, "рептилоид".data,
      "на".data, "Марсе".data] ++ tokens rest).length < 120 :=
    Nat.max_lt.2 ⟨by norm_num, hN⟩
  have hNpos : (0:ℚ) < ((max 1 (["СРОЧНО".data, "ШОК".data, "обнаружен".data,
      "рептилоид".data, "на".data, "Марсе".data] ++ tokens rest).length : ℕ) : ℚ) := by
    have : 0 < max 1 (["СРОЧНО".data, "ШОК".data, "обнаружен".data, "рептилоид".data,
        "на".data, "Марсе".data] ++ tokens rest).length := by
      exact Nat.lt_of_lt_of_le Nat.zero_lt_one (Nat.le_max_left _ _)
    exact_mod_cast this
  have hNlt : ((max 1 (["СРОЧНО".data, "ШОК".data, "обнаружен".data, "рептилоид".data,
      "на".data, "Марсе".data] ++ tokens rest).length : ℕ) : ℚ) < 120 := by
    exact_mod_cast hmaxlt
  have hcq : (1:ℚ) ≤ ((["СРОЧНО".data, "ШОК".data, "обнаружен".data, "рептилоид".data,
      "на".data, "Марсе".data] ++ tokens rest).countP isUpperWord : ℚ) := by
    exact_mod_cast hcount
  rw [div_mul_eq_mul_div, lt_div_iff₀ hNpos]
  nlinarith [hcq, hNlt, hNpos]

/-- Projection of the submission decision: the handler rejects exactly
when the computed score exceeds the threshold. -/
lemma add_news_rejected_eq (db : List NewsRow) (fs : List String) (failing : String → Bool)
    (title author content : String) (image_name audio_name : Option String)
    (created_at : String) (nid : Nat) :
    (add_news db fs failing title author content image_name audio_name created_at nid).rejected
      = decide (FAKE_THRESHOLD < improved_fake_score content title) := by
  unfold add_news
  by_cases h : FAKE_THRESHOLD < improved_fake_score content title
  · simp [h]
  · simp [h]

/-- C7 (amended): for every nonempty body that contains no URL and keeps
the combined text under 120 tokens, a submission with the scenario-A
title `СРОЧНО!!! ШОК: обнаружен рептилоид на Марсе!!!` scores strictly
above the threshold 70 and is rejected by the submission handler; the
token bound is needed because a long enough body dilutes the
capitalization signal below the threshold. -/
theorem C7_amended_scenario_title_rejects (body : String) (hb : body.data ≠ [])
    (hurl : urlSearch body.data = false)
    (hN : (tokens (combinedOf body.data TITLE_A.data)).length < 120) :
    FAKE_THRESHOLD < improved_fake_score body TITLE_A ∧
    ∀ db fs failing author image_name audio_name created_at nid,
      (add_news db fs failing TITLE_A author body image_name audio_name created_at
        nid).rejected = true := by
  obtain ⟨rest, hcomb, hrest⟩ := combined_title_structure body.data
  rw [hcomb] at hN
  have hscore : FAKE_THRESHOLD < improved_fake_score body TITLE_A := by
    unfold improved_fake_score improvedFakeScoreL
    rw [if_neg (by simpa [List.isEmpty_eq_true] using hb)]
    dsimp only
    rw [hcomb]
    have h1 := sensScore_title_ge rest
    have h2 := tellsScore_title_ge rest
    have h3 := urlScore_combined body.data rest hurl hrest
    have h4 := exclScore_title_ge rest
    have h5 := quesScore_nonneg (TITLE_A.data ++ rest)
    have h6 := capsScore_title_gt_one rest hN
    have h7 := lenScore_nonneg (TITLE_A.data ++ rest)
    have h8 := avgScore_nonneg (TITLE_A.data ++ rest)
    have h9 := rule7Score_title rest
    have hsum : (70:ℚ) < sensScore (TITLE_A.data ++ rest) + tellsScore (TITLE_A.data ++ rest) +
        urlScore (TITLE_A.data ++ rest) + exclScore (TITLE_A.data ++ rest) +
        quesScore (TITLE_A.data ++ rest) + capsScore (TITLE_A.data ++ rest) +
        lenScore (TITLE_A.data ++ rest) + avgScore (TITLE_A.data ++ rest) +
        rule7Score (TITLE_A.data ++ rest) := by
      rw [h3, h9]
      linarith
    have hmin : (70:ℚ) < min 100 (sensScore (TITLE_A.data ++ rest) +
        tellsScore (TITLE_A.data ++ rest) + urlScore (TITLE_A.data ++ rest) +
        exclScore (TITLE_A.data ++ rest) + quesScore (TITLE_A.data ++ rest) +
        capsScore (TITLE_A.data ++ rest) + lenScore (TITLE_A.data ++ rest) +
        avgScore (TITLE_A.data ++ rest) + rule7Score (TITLE_A.data ++ rest)) :=
      lt_min (by norm_num) hsum
    exact lt_of_lt_of_le hmin (le_max_right 0 _)
  refine ⟨hscore, fun db fs failing author image_name audio_name created_at nid => ?_⟩
  rw [add_news_rejected_eq]
  exact decide_eq_true hscore

/-- C7 amended witness: the concrete scenario body
`обнаружен рептилоид на Марсе` is nonempty, URL-free, keeps the combined
text at 10 tokens, and the resulting score exceeds the threshold with the
submission rejected. -/
theorem C7_amended_scenario_title_rejects_witness :
    ("обнаружен рептилоид на Марсе" : String).data ≠ [] ∧
    urlSearch ("обнаружен рептилоид на Марсе" : String).data = false ∧
    (tokens (combinedOf ("обнаружен рептилоид на Марсе" : String).data
      TITLE_A.data)).length < 120 ∧
    FAKE_THRESHOLD < improved_fake_score "обнаружен рептилоид на Марсе" TITLE_A ∧
    (add_news [] [] (fun _ => false) TITLE_A "автор" "обнаружен рептилоид на Марсе"
      none none "t0" 1).rejected = true :=
  ⟨by decide, by decide, by decide,
   (C7_amended_scenario_title_rejects "обнаружен рептилоид на Марсе" (by decide) (by decide)
     (by decide)).1,
   (C7_amended_scenario_title_rejects "обнаружен рептилоид на Марсе" (by decide) (by decide)
     (by decide)).2 [] [] (fun _ => false) "автор" none none "t0" 1⟩

set_option maxRecDepth 100000 in
/-- C7 counterexample: with the scenario-A title and the URL-free body
`планета ` repeated 120 times, the capitalization signal is diluted to
20/21, the score is 69 + 20/21 < 70, and the submission is accepted, so
the claim is false without a bound on the body length. -/
theorem C7_counterexample :
    urlSearch (String.join (List.replicate 120 "планета ")).data = false ∧
    improved_fake_score (String.join (List.replicate 120 "планета ")) TITLE_A < 70 ∧
    (add_news [] [] (fun _ => false) TITLE_A "автор"
        (String.join (List.replicate 120 "планета ")) none none "t0" 1).rejected = false := by
  have h2 : improved_fake_score (String.join (List.replicate 120 "планета ")) TITLE_A < 70 := by
    with_unfolding_all decide
  refine ⟨by decide, h2, ?_⟩
  have hsc : ¬ FAKE_THRESHOLD <
      improved_fake_score (String.join (List.replicate 120 "планета ")) TITLE_A :=
    not_lt.2 (le_of_lt h2)
  rw [add_news_rejected_eq]
  exact decide_eq_false hsc
